import Mathlib

/-!
Verification of the day-partitioned batch controller in
`PSD_parquet_processing_scripts/git_action_batch.py`.

The embedding models timezone-aware `datetime` values with a single fixed
UTC offset (as produced by `pytz` localization of all bounds of one run):
all of the script's partition arithmetic (`.day`, `.date()`, `+ timedelta`,
comparisons) is then wall-clock arithmetic.  A datetime is represented by
the proleptic-Gregorian ordinal of its local date (CPython `date.toordinal`)
together with the microsecond of the local day; this pair is in bijection
with CPython's stored field tuple, and every operation the script performs
is translated through the same ordinal/field conversions CPython uses
(`_ymd2ord` / `_ord2ymd` in `Lib/datetime.py`).
-/

namespace Orca

/-! ### Calendar arithmetic (CPython `Lib/datetime.py` internals) -/

/-- Civil date triple, as stored in a CPython `datetime.date`. -/
structure Ymd where
  y : ℤ
  m : ℤ
  d : ℤ
deriving DecidableEq, Repr

/-- CPython `_is_leap(year)`: `year % 4 == 0 and (year % 100 != 0 or year % 400 == 0)`
(Python `%` on a positive modulus agrees with `Int.emod`). -/
def isLeap (y : ℤ) : Bool :=
  y % 4 == 0 && (y % 100 != 0 || y % 400 == 0)

/-- CPython `_DAYS_IN_MONTH[m]` (February entry 28; leap handled separately). -/
def dimTab (m : ℤ) : ℤ :=
  if m = 1 then 31 else if m = 2 then 28 else if m = 3 then 31
  else if m = 4 then 30 else if m = 5 then 31 else if m = 6 then 30
  else if m = 7 then 31 else if m = 8 then 31 else if m = 9 then 30
  else if m = 10 then 31 else if m = 11 then 30 else if m = 12 then 31
  else 0

/-- CPython `_DAYS_BEFORE_MONTH[m]`: days in a non-leap year strictly before month `m`. -/
def dbmTab (m : ℤ) : ℤ :=
  if m = 1 then 0 else if m = 2 then 31 else if m = 3 then 59
  else if m = 4 then 90 else if m = 5 then 120 else if m = 6 then 151
  else if m = 7 then 181 else if m = 8 then 212 else if m = 9 then 243
  else if m = 10 then 273 else if m = 11 then 304 else if m = 12 then 334
  else 0

/-- CPython `_days_before_year(year)`. -/
def dbY (y : ℤ) : ℤ :=
  365 * (y - 1) + (y - 1).fdiv 4 - (y - 1).fdiv 100 + (y - 1).fdiv 400

/-- CPython `_ymd2ord(year, month, day)`: proleptic-Gregorian ordinal
(`date(1,1,1).toordinal() == 1`). -/
def ymd2ord (x : Ymd) : ℤ :=
  dbY x.y + dbmTab x.m + (if 2 < x.m && isLeap x.y then 1 else 0) + x.d

/-- The month/day stage of CPython `_ord2ymd`: given the leap flag of the year
and the 0-based day index `r` within the year, recover month and day. -/
def monthDay (leap : Bool) (r : ℤ) : ℤ × ℤ :=
  let m0 := (r + 50).fdiv 32
  let p0 := dbmTab m0 + (if 2 < m0 && leap then 1 else 0)
  if p0 > r then
    let m := m0 - 1
    let p := p0 - (dimTab m + (if m = 2 && leap then 1 else 0))
    (m, r - p + 1)
  else
    (m0, r - p0 + 1)

/-- CPython `_ord2ymd(n)` (`Lib/datetime.py`), with Python `divmod`
translated as floor division `Int.fdiv`/`Int.fmod`. -/
def ord2ymd (n : ℤ) : Ymd :=
  let n0 := n - 1
  let n400 := n0.fdiv 146097
  let r400 := n0.fmod 146097
  let n100 := r400.fdiv 36524
  let r100 := r400.fmod 36524
  let n4 := r100.fdiv 1461
  let r4 := r100.fmod 1461
  let n1 := r4.fdiv 365
  let r := r4.fmod 365
  let year := n400 * 400 + n100 * 100 + n4 * 4 + n1 + 1
  if n1 = 4 ∨ n100 = 4 then
    ⟨year - 1, 12, 31⟩
  else
    let leap := n1 == 3 && (n4 != 24 || n100 == 3)
    let md := monthDay leap r
    ⟨year, md.1, md.2⟩

/-- Field ranges of a genuine CPython date. -/
def Ymd.Valid (x : Ymd) : Prop :=
  1 ≤ x.y ∧ 1 ≤ x.m ∧ x.m ≤ 12 ∧ 1 ≤ x.d ∧ x.d ≤ 31

instance (x : Ymd) : Decidable x.Valid := by unfold Ymd.Valid; infer_instance

/-! ### Datetimes and the controller's run model -/

/-- Microseconds per day. -/
def usPerDay : ℤ := 86400000000

/-- A timezone-aware `datetime` at a fixed UTC offset: ordinal of the local
date plus the microsecond of the local day.  (Bijective with CPython's
stored `(year, …, microsecond)` fields for valid values.) -/
structure DT where
  ord : ℤ
  tod : ℤ
deriving DecidableEq, Repr

/-- Total microseconds on the local wall clock; CPython comparison of two
aware datetimes sharing one offset orders exactly by this value. -/
def DT.us (t : DT) : ℤ := t.ord * usPerDay + t.tod

/-- Well-formedness of the representation: a real CPython datetime
(year ≥ 1, time-of-day within the day). -/
def DT.Valid (t : DT) : Prop := 1 ≤ t.ord ∧ 0 ≤ t.tod ∧ t.tod < usPerDay

instance (t : DT) : Decidable t.Valid := by unfold DT.Valid; infer_instance

/-- `start_time.day` / `end_time.day`: the day-of-month field
(git_action_batch.py line 71 compares these). -/
def DT.pyDay (t : DT) : ℤ := (ord2ymd t.ord).d

/-- ASCII digit character `n % 10` (CPython decimal formatting). -/
def digitC (n : ℕ) : Char := Char.ofNat (48 + n % 10)

/-- Zero-padded two-digit decimal rendering (CPython `%02d`). -/
def pad2 (n : ℕ) : List Char := [digitC (n / 10), digitC n]

/-- Zero-padded four-digit decimal rendering (CPython `%04d`, `strftime %Y`). -/
def pad4 (n : ℕ) : List Char :=
  [digitC (n / 1000), digitC (n / 100), digitC (n / 10), digitC n]

/-- Zero-padded six-digit decimal rendering (CPython `%06d`, microseconds). -/
def pad6 (n : ℕ) : List Char :=
  [digitC (n / 100000), digitC (n / 10000), digitC (n / 1000), digitC (n / 100),
   digitC (n / 10), digitC n]

/-- `strftime('%Y-%m-%d')` on a date. -/
def fmtYmd (x : Ymd) : String :=
  String.mk (pad4 x.y.toNat ++ '-' :: pad2 x.m.toNat ++ '-' :: pad2 x.d.toNat)

/-- The parquet folder built at git_action_batch.py lines 78 and 95:
`f"data/hydrophone={hydrophone}/date={...strftime('%Y-%m-%d')}/"`. -/
def folderOf (hydro : String) (x : Ymd) : String :=
  "data/hydrophone=" ++ hydro ++ "/date=" ++ fmtYmd x ++ "/"

/-- `get_hydrophone_enum` (lines 33–56) succeeds exactly on these four names;
otherwise it raises `ValueError`. -/
def validHydro (h : String) : Bool :=
  h == "BUSH_POINT" || h == "ORCASOUND_LAB" || h == "PORT_TOWNSEND" || h == "SUNSET_BAY"

/-- A pipeline invocation: the `pqt_folder` given to `NoiseAnalysisPipeline`
and the two bounds given to `generate_parquet_file`. -/
structure CallRec where
  folder : String
  s : DT
  e : DT
deriving DecidableEq, Repr

/-- Observable events of a run: pipeline invocations and `bookmark.update` calls. -/
inductive Ev where
  | call (c : CallRec)
  | upd (t : DT)
deriving DecidableEq, Repr

/-- Exceptions `process_audio_data` can propagate: `ValueError` from
`get_hydrophone_enum`, or a failure of `generate_parquet_file`. -/
inductive RunErr where
  | valueErr
  | pipeErr
deriving DecidableEq, Repr

/-- The values passed to `bookmark.update`, in order. -/
def updatesOf : List Ev → List DT
  | [] => []
  | .upd t :: r => t :: updatesOf r
  | .call _ :: r => updatesOf r

/-- The pipeline invocations, in order. -/
def callsOf : List Ev → List CallRec
  | [] => []
  | .upd _ :: r => callsOf r
  | .call c :: r => c :: callsOf r

/-- `dates_array` (line 74): `[start_date + timedelta(days=x) for x in
range((end_date - start_date).days + 1)]`, as ordinals. -/
def planDates (s e : DT) : List ℤ :=
  (List.range (e.ord - s.ord + 1).toNat).map (fun x : ℕ => s.ord + (x : ℤ))

/-- The local midnight beginning the day after the date with ordinal `d`:
`dt.datetime(dates_array[i].year, .month, .day, tzinfo=start_time.tzinfo)
+ dt.timedelta(days=1)` (line 77). -/
def nextMidnight (d : ℤ) : DT :=
  ⟨ymd2ord (ord2ymd d) + 1, 0⟩

/-- The body of the multi-day `for` loop (lines 76–93): iterate over the
remaining dates, carrying `start_time`; `intermediate_end` is the next local
midnight except at the last index, where it is `end_time`; after a successful
pipeline call the bookmark is updated and `start_time` becomes
`intermediate_end`.  `pipe k` tells whether the `k`-th pipeline invocation of
the run succeeds; on failure the exception stops the loop. -/
def runLoop (pipe : ℕ → Bool) (hydro : String) (endT : DT) :
    List ℤ → DT → ℕ → List Ev × Bool
  | [], _, _ => ([], true)
  | [d], st, k =>
      let c : CallRec := ⟨folderOf hydro (ord2ymd d), st, endT⟩
      if pipe k then ([.call c, .upd endT], true) else ([.call c], false)
  | d :: d' :: rest, st, k =>
      let ie := nextMidnight d
      let c : CallRec := ⟨folderOf hydro (ord2ymd d), st, ie⟩
      if pipe k then
        let r := runLoop pipe hydro endT (d' :: rest) ie (k + 1)
        (.call c :: .upd ie :: r.1, r.2)
      else ([.call c], false)

/-- `process_audio_data(start_time, end_time, hydrophone, bookmark)`
(lines 59–108).  Returns the event trace and the outcome. -/
def processAudioData (pipe : ℕ → Bool) (startT endT : DT) (hydro : String) :
    List Ev × Except RunErr Unit :=
  if startT.pyDay ≠ endT.pyDay then
    if validHydro hydro then
      let r := runLoop pipe hydro endT (planDates startT endT) startT 0
      if r.2 then (r.1 ++ [.upd endT], .ok ()) else (r.1, .error .pipeErr)
    else ([], .error .valueErr)
  else
    if validHydro hydro then
      let c : CallRec := ⟨folderOf hydro (ord2ymd startT.ord), startT, endT⟩
      if pipe 0 then ([.call c, .upd endT], .ok ())
      else ([.call c], .error .pipeErr)
    else ([], .error .valueErr)

/-- Default lookback `dt.timedelta(hours=1)` in microseconds (line 129). -/
def lookbackUs : ℤ := 3600000000

/-- `datetime - timedelta`: subtract on total microseconds, renormalizing the
date/time-of-day split by floor division, exactly as CPython's normalized
field arithmetic does. -/
def dtSubUs (t : DT) (us : ℤ) : DT :=
  ⟨(t.us - us).fdiv usPerDay, (t.us - us).fmod usPerDay⟩

/-- Outcome of one `main()` run (lines 111–132). -/
structure MainOut where
  effStart : DT
  effEnd : DT
  trace : List Ev
  res : Except RunErr Unit
deriving Repr

/-- `main()` (lines 123–132) after argument parsing: `loaded` is the
checkpoint read by `bookmark.load()`, `now` the current Pacific wall time;
`start_time = bookmark.last_processed or (now - timedelta(hours=1))`
(a datetime object is always truthy), `end_time = now`, then
`process_audio_data` runs. -/
def mainRun (pipe : ℕ → Bool) (hydro : String) (now : DT) (loaded : Option DT) :
    MainOut :=
  let s := loaded.getD (dtSubUs now lookbackUs)
  let r := processAudioData pipe s now hydro
  ⟨s, now, r.1, r.2⟩

/-- A bookmark's `last_processed` after a trace of updates: the last updated
value, else the pre-run value. -/
def afterRun (pre : Option DT) (tr : List Ev) : Option DT :=
  (updatesOf tr).getLast?.or pre

/-- The partition plan realized by the multi-day loop: the `(folder, start,
intermediate_end)` triples of the successive iterations. -/
def planParts (hydro : String) (endT : DT) : List ℤ → DT → List CallRec
  | [], _ => []
  | [d], st => [⟨folderOf hydro (ord2ymd d), st, endT⟩]
  | d :: d' :: rest, st =>
      let ie := nextMidnight d
      ⟨folderOf hydro (ord2ymd d), st, ie⟩ :: planParts hydro endT (d' :: rest) ie

/-- Interleaved event trace of a fully successful loop. -/
def interleave : List CallRec → List Ev
  | [] => []
  | c :: rest => .call c :: .upd c.e :: interleave rest

/-- The list `[a, a+1, …, a+L-1]` of consecutive ordinals. -/
def conseq (a : ℤ) : ℕ → List ℤ
  | 0 => []
  | L + 1 => a :: conseq (a + 1) L

/-- Decidable equality for `Except` outcomes (used to evaluate runs on
concrete inputs). -/
instance {e a : Type} [DecidableEq e] [DecidableEq a] : DecidableEq (Except e a) :=
  fun x y =>
    match x, y with
    | .ok u, .ok v =>
        if h : u = v then .isTrue (by rw [h]) else .isFalse (fun hh => h (Except.ok.inj hh))
    | .error u, .error v =>
        if h : u = v then .isTrue (by rw [h])
        else .isFalse (fun hh => h (Except.error.inj hh))
    | .ok _, .error _ => .isFalse (fun hh => Except.noConfusion hh)
    | .error _, .ok _ => .isFalse (fun hh => Except.noConfusion hh)

/-! ### The checkpoint file layer (`Bookmark.update` / `Bookmark.load`) -/

/-- A CPython aware `datetime` by its stored fields plus its fixed UTC
offset in minutes (`pytz` zone offsets are whole minutes). -/
structure PyDateTime where
  year : ℕ
  month : ℕ
  day : ℕ
  hour : ℕ
  minute : ℕ
  second : ℕ
  usec : ℕ
  offMin : ℤ
deriving DecidableEq, Repr

/-- Field ranges of a genuine timezone-aware CPython datetime
(offset strictly within ±24h, whole minutes). -/
def PyDateTime.Valid (t : PyDateTime) : Prop :=
  1 ≤ t.year ∧ t.year ≤ 9999 ∧ 1 ≤ t.month ∧ t.month ≤ 12 ∧
  1 ≤ t.day ∧ t.day ≤ 31 ∧ t.hour ≤ 23 ∧ t.minute ≤ 59 ∧
  t.second ≤ 59 ∧ t.usec ≤ 999999 ∧ -1439 ≤ t.offMin ∧ t.offMin ≤ 1439

instance (t : PyDateTime) : Decidable t.Valid := by
  unfold PyDateTime.Valid; infer_instance

/-- The characters of `datetime.isoformat()` for an aware datetime:
`YYYY-MM-DDTHH:MM:SS[.ffffff]±HH:MM` (microseconds omitted when zero,
timespec `auto`; offset rendered sign, hours, minutes). -/
def isoChars (t : PyDateTime) : List Char :=
  pad4 t.year ++ '-' :: (pad2 t.month ++ '-' :: (pad2 t.day ++ 'T' ::
    (pad2 t.hour ++ ':' :: (pad2 t.minute ++ ':' :: (pad2 t.second ++
    ((if t.usec = 0 then [] else '.' :: pad6 t.usec) ++
     ((if t.offMin < 0 then '-' else '+') ::
      (pad2 ((t.offMin.natAbs) / 60) ++ ':' :: pad2 ((t.offMin.natAbs) % 60)))))))))

/-- `datetime.isoformat()` as a string. -/
def isoformat (t : PyDateTime) : String := String.mk (isoChars t)

/-- Read a decimal digit character. -/
def readD (c : Char) : Option ℕ :=
  if 48 ≤ c.toNat ∧ c.toNat ≤ 57 then some (c.toNat - 48) else none

/-- Read two digits. -/
def read2 : List Char → Option (ℕ × List Char)
  | c1 :: c2 :: rest =>
      match readD c1, readD c2 with
      | some a, some b => some (10 * a + b, rest)
      | _, _ => none
  | _ => none

/-- Read four digits. -/
def read4 : List Char → Option (ℕ × List Char)
  | c1 :: c2 :: c3 :: c4 :: rest =>
      match readD c1, readD c2, readD c3, readD c4 with
      | some a, some b, some c, some d => some (1000 * a + 100 * b + 10 * c + d, rest)
      | _, _, _, _ => none
  | _ => none

/-- Read six digits. -/
def read6 : List Char → Option (ℕ × List Char)
  | c1 :: c2 :: c3 :: c4 :: c5 :: c6 :: rest =>
      match readD c1, readD c2, readD c3, readD c4, readD c5, readD c6 with
      | some a, some b, some c, some d, some e, some f =>
          some (100000 * a + 10000 * b + 1000 * c + 100 * d + 10 * e + f, rest)
      | _, _, _, _, _, _ => none
  | _ => none

/-- Expect a literal character. -/
def expectC (c : Char) : List Char → Option (List Char)
  | x :: rest => if x = c then some rest else none
  | [] => none

/-- Parser for the `YYYY-MM-DD` date rendering (used to show `fmtYmd` is
injective on valid dates). -/
def parseYmdChars (l : List Char) : Option Ymd :=
  match read4 l with
  | some (y, l1) =>
      match expectC '-' l1 with
      | some l2 =>
          match read2 l2 with
          | some (m, l3) =>
              match expectC '-' l3 with
              | some l4 =>
                  match read2 l4 with
                  | some (d, l5) =>
                      if l5 = [] then some ⟨(y : ℤ), (m : ℤ), (d : ℤ)⟩ else none
                  | none => none
              | none => none
          | none => none
      | none => none
  | none => none

/-- Parse the trailing `±HH:MM` offset and end of input. -/
def parseOff (l : List Char) : Option ℤ :=
  match l with
  | sgn :: r =>
      if sgn = '+' ∨ sgn = '-' then
        match read2 r with
        | some (oh, r1) =>
            match expectC ':' r1 with
            | some r2 =>
                match read2 r2 with
                | some (om, r3) =>
                    if r3 = [] then
                      some (if sgn = '-' then -((60 * oh + om : ℕ) : ℤ)
                            else ((60 * oh + om : ℕ) : ℤ))
                    else none
                | none => none
            | none => none
        | none => none
      else none
  | [] => none

/-- Parse the optional `.ffffff` microsecond part. -/
def parseUsec (l : List Char) : Option (ℕ × List Char) :=
  match l with
  | c :: r => if c = '.' then read6 r else some (0, l)
  | [] => some (0, l)

/-- Parse `HH:MM:SS` plus the optional microseconds and the offset. -/
def parseTimePart (y mo d : ℕ) (l : List Char) : Option PyDateTime :=
  match read2 l with
  | some (hh, l1) =>
      match expectC ':' l1 with
      | some l2 =>
          match read2 l2 with
          | some (mi, l3) =>
              match expectC ':' l3 with
              | some l4 =>
                  match read2 l4 with
                  | some (ss, l5) =>
                      match parseUsec l5 with
                      | some (us, l6) =>
                          match parseOff l6 with
                          | some off => some ⟨y, mo, d, hh, mi, ss, us, off⟩
                          | none => none
                      | none => none
                  | none => none
              | none => none
          | none => none
      | none => none
  | none => none

/-- `datetime.fromisoformat` on the grammar of strings `isoformat` produces
for aware datetimes (the documented inverse of `isoformat`); reconstructs
the fields and the fixed UTC offset. -/
def parseIso (l : List Char) : Option PyDateTime :=
  match read4 l with
  | some (y, l1) =>
      match expectC '-' l1 with
      | some l2 =>
          match read2 l2 with
          | some (mo, l3) =>
              match expectC '-' l3 with
              | some l4 =>
                  match read2 l4 with
                  | some (d, l5) =>
                      match expectC 'T' l5 with
                      | some l6 => parseTimePart y mo d l6
                      | none => none
                  | none => none
              | none => none
          | none => none
      | none => none
  | none => none

/-- `fromisoformat` on a string. -/
def fromisoformat (s : String) : Option PyDateTime := parseIso s.data

/-- The literal prefix of the JSON object `json.dump({'last_processed': …})`
writes: `\x7b"last_processed": "`. -/
def bmLit : List Char := String.data "\x7b\"last_processed\": \""

/-- Consume an expected literal character sequence. -/
def eatLit : List Char → List Char → Option (List Char)
  | [], l => some l
  | p :: ps, c :: cs => if c = p then eatLit ps cs else none
  | _ :: _, [] => none

/-- Scan a JSON string value up to the closing quote. -/
def takeStr : List Char → Option (List Char × List Char)
  | [] => none
  | c :: rest =>
      if c = '"' then some ([], rest)
      else
        match takeStr rest with
        | some (v, r) => some (c :: v, r)
        | none => none

/-- The exact file content `Bookmark.update` (lines 19–22) writes:
`json.dump({'last_processed': self.last_processed.isoformat()}, f)`. -/
def updateContent (t : PyDateTime) : String :=
  String.mk (bmLit ++ (isoChars t ++ '"' :: [Char.ofNat 125]))

/-- `json.load(f)['last_processed']` on the single-field bookmark object. -/
def parseBookmark (s : String) : Option String :=
  match eatLit bmLit s.data with
  | some l =>
      match takeStr l with
      | some (v, r) => if r = [Char.ofNat 125] then some (String.mk v) else none
      | none => none
  | none => none

/-- Outcome of `open(self.bookmark_path, 'r')` as seen by `Bookmark.load`. -/
inductive ReadResult where
  | notFound
  | ioError (msg : String)
  | content (s : String)
deriving DecidableEq, Repr

/-- Errors `Bookmark.load` can propagate: an I/O error other than
file-not-found, or a `KeyError`/`ValueError` from `json.load` /
`datetime.fromisoformat`. -/
inductive LoadErr where
  | ioErr (msg : String)
  | valueErr
deriving DecidableEq, Repr

/-- `Bookmark.load` (lines 24–30): `try: open/json.load/fromisoformat
except FileNotFoundError: self.last_processed = None`.  Only
`FileNotFoundError` is caught; every other failure propagates. -/
def bookmarkLoad : ReadResult → Except LoadErr (Option PyDateTime)
  | .notFound => .ok none
  | .ioError m => .error (.ioErr m)
  | .content s =>
      match parseBookmark s with
      | none => .error .valueErr
      | some iso =>
          match fromisoformat iso with
          | none => .error .valueErr
          | some t => .ok (some t)

/-! ### Calendar lemmas: `_ord2ymd` is a right inverse of `_ymd2ord` -/

set_option maxRecDepth 10000 in
lemma monthDay_spec : ∀ (leap : Bool), ∀ r < 365,
    1 ≤ (monthDay leap (r : ℕ)).1 ∧ (monthDay leap (r : ℕ)).1 ≤ 12 ∧
    1 ≤ (monthDay leap (r : ℕ)).2 ∧ (monthDay leap (r : ℕ)).2 ≤ 31 ∧
    dbmTab (monthDay leap (r : ℕ)).1 +
      (if 2 < (monthDay leap (r : ℕ)).1 && leap then 1 else 0) +
      (monthDay leap (r : ℕ)).2 = (r : ℕ) + 1 := by decide

lemma ymd2ord_dec31 (Y : ℤ) (h : isLeap Y = true) :
    ymd2ord ⟨Y, 12, 31⟩ = dbY Y + 366 := by
  simp [ymd2ord, dbmTab, h]
  ring

lemma dbY_expand (a b c e : ℤ) (ha : 0 ≤ a) (hb : 0 ≤ b) (hb3 : b ≤ 3)
    (hc : 0 ≤ c) (hc24 : c ≤ 24) (he : 0 ≤ e) (he3 : e ≤ 3) :
    dbY (a * 400 + b * 100 + c * 4 + e + 1) =
      146097 * a + 36524 * b + 1461 * c + 365 * e := by
  have e4 : ∀ x : ℤ, x.fdiv 4 = x / 4 := fun x => Int.fdiv_eq_ediv x (by norm_num)
  have e100 : ∀ x : ℤ, x.fdiv 100 = x / 100 := fun x => Int.fdiv_eq_ediv x (by norm_num)
  have e400 : ∀ x : ℤ, x.fdiv 400 = x / 400 := fun x => Int.fdiv_eq_ediv x (by norm_num)
  simp only [dbY, e4, e100, e400]
  omega

theorem ord2ymd_spec (n : ℤ) (hn : 1 ≤ n) :
    ymd2ord (ord2ymd n) = n ∧ (ord2ymd n).Valid := by
  simp only [ord2ymd]
  have h400 := Int.fdiv_add_fmod (n - 1) 146097
  have h400n : 0 ≤ (n - 1).fmod 146097 := Int.fmod_nonneg' _ (by norm_num)
  have h400l : (n - 1).fmod 146097 < 146097 := Int.fmod_lt_of_pos _ (by norm_num)
  have ha0 : 0 ≤ (n - 1).fdiv 146097 := Int.fdiv_nonneg (by omega) (by norm_num)
  set a := (n - 1).fdiv 146097 with hadef
  set r400 := (n - 1).fmod 146097 with hr400def
  have h100 := Int.fdiv_add_fmod r400 36524
  have h100n : 0 ≤ r400.fmod 36524 := Int.fmod_nonneg' _ (by norm_num)
  have h100l : r400.fmod 36524 < 36524 := Int.fmod_lt_of_pos _ (by norm_num)
  have hb0 : 0 ≤ r400.fdiv 36524 := Int.fdiv_nonneg (by omega) (by norm_num)
  set b := r400.fdiv 36524 with hbdef
  set r100 := r400.fmod 36524 with hr100def
  have h4 := Int.fdiv_add_fmod r100 1461
  have h4n : 0 ≤ r100.fmod 1461 := Int.fmod_nonneg' _ (by norm_num)
  have h4l : r100.fmod 1461 < 1461 := Int.fmod_lt_of_pos _ (by norm_num)
  have hc0 : 0 ≤ r100.fdiv 1461 := Int.fdiv_nonneg (by omega) (by norm_num)
  set c := r100.fdiv 1461 with hcdef
  set r4 := r100.fmod 1461 with hr4def
  have h1 := Int.fdiv_add_fmod r4 365
  have h1n : 0 ≤ r4.fmod 365 := Int.fmod_nonneg' _ (by norm_num)
  have h1l : r4.fmod 365 < 365 := Int.fmod_lt_of_pos _ (by norm_num)
  have he0 : 0 ≤ r4.fdiv 365 := Int.fdiv_nonneg (by omega) (by norm_num)
  set e := r4.fdiv 365 with hedef
  set r := r4.fmod 365 with hrdef
  clear_value a r400 b r100 c r4 e r
  clear hadef hr400def hbdef hr100def hcdef hr4def hedef hrdef
  have hble : b ≤ 4 := by omega
  have hcle : c ≤ 24 := by omega
  have hele : e ≤ 4 := by omega
  split_ifs with hcase
  · -- n1 = 4 or n100 = 4 : December 31 of the preceding (leap) year
    rcases hcase with he4 | hb4
    · -- n1 = 4 : r4 = 1460, r = 0; c ≤ 23
      have hr40 : r4 = 1460 := by omega
      have hc23 : c ≤ 23 := by omega
      have hb3 : b ≤ 3 := by omega
      subst he4
      have hleap : isLeap (a * 400 + b * 100 + c * 4 + 4 + 1 - 1) = true := by
        simp only [isLeap, Bool.and_eq_true, beq_iff_eq, Bool.or_eq_true, bne_iff_ne,
          ne_eq, decide_eq_true_eq]
        omega
      rw [ymd2ord_dec31 _ hleap]
      have harg : a * 400 + b * 100 + c * 4 + 4 + 1 - 1 =
          a * 400 + b * 100 + c * 4 + 3 + 1 := by ring
      rw [harg, dbY_expand a b c 3 ha0 hb0 hb3 hc0 (by omega) (by norm_num) (by norm_num)]
      refine ⟨by omega, ?_⟩
      simp only [Ymd.Valid]
      omega
    · -- n100 = 4 : r100 = 0, hence c = e = r = 0
      have hr1000 : r100 = 0 := by omega
      have hc0' : c = 0 := by omega
      have hr40 : r4 = 0 := by omega
      have he0' : e = 0 := by omega
      subst hb4
      subst hc0'
      subst he0'
      have hleap : isLeap (a * 400 + 4 * 100 + 0 * 4 + 0 + 1 - 1) = true := by
        simp only [isLeap, Bool.and_eq_true, beq_iff_eq, Bool.or_eq_true, bne_iff_ne,
          ne_eq, decide_eq_true_eq]
        omega
      rw [ymd2ord_dec31 _ hleap]
      have harg : a * 400 + 4 * 100 + 0 * 4 + 0 + 1 - 1 =
          a * 400 + 3 * 100 + 24 * 4 + 3 + 1 := by ring
      rw [harg, dbY_expand a 3 24 3 ha0 (by norm_num) (by norm_num) (by norm_num)
        (by norm_num) (by norm_num) (by norm_num)]
      refine ⟨by omega, ?_⟩
      simp only [Ymd.Valid]
      omega
  · -- general case
    push_neg at hcase
    obtain ⟨hene, hbne⟩ := hcase
    have he3 : e ≤ 3 := by omega
    have hb3 : b ≤ 3 := by omega
    set L := (e == 3 && (c != 24 || b == 3)) with hLdef
    have hisL : isLeap (a * 400 + b * 100 + c * 4 + e + 1) = L := by
      cases hL : L with
      | true =>
        simp only [hLdef, Bool.and_eq_true, beq_iff_eq, Bool.or_eq_true, bne_iff_ne,
          ne_eq] at hL
        simp only [isLeap, Bool.and_eq_true, beq_iff_eq, Bool.or_eq_true, bne_iff_ne,
          ne_eq, decide_eq_true_eq]
        omega
      | false =>
        simp only [hLdef, Bool.and_eq_false_iff, beq_eq_false_iff_ne, ne_eq,
          Bool.or_eq_false_iff, bne_eq_false_iff_eq] at hL
        simp only [isLeap]
        rw [Bool.and_eq_false_iff]
        rcases hL with h | ⟨h1', h2'⟩
        · left
          simp only [beq_eq_false_iff_ne, ne_eq]
          omega
        · by_cases hdiv : (a * 400 + b * 100 + c * 4 + e + 1) % 4 = 0
          · right
            rw [Bool.or_eq_false_iff]
            refine ⟨by simp only [bne_eq_false_iff_eq]; omega,
              by simp only [beq_eq_false_iff_ne, ne_eq]; omega⟩
          · left
            simp only [beq_eq_false_iff_ne, ne_eq]
            exact hdiv
    have hrcast : ((r.toNat : ℕ) : ℤ) = r := Int.toNat_of_nonneg h1n
    obtain ⟨hm1, hm12, hd1, hd31, hsum⟩ := monthDay_spec L r.toNat (by omega)
    rw [hrcast] at hm1 hm12 hd1 hd31 hsum
    constructor
    · simp only [ymd2ord, hisL]
      rw [dbY_expand a b c e ha0 hb0 hb3 hc0 hcle he0 he3]
      set adj := (if 2 < (monthDay L r).1 && L then (1 : ℤ) else 0) with hadj
      set m1 := (monthDay L r).1 with hm1def
      set d1 := (monthDay L r).2 with hd1def
      set dbm1 := dbmTab m1 with hdbm1
      clear_value m1 d1 adj dbm1
      clear hadj hm1def hd1def hdbm1
      omega
    · simp only [Ymd.Valid]
      exact ⟨by omega, hm1, hm12, hd1, hd31⟩

lemma ymd2ord_ord2ymd (n : ℤ) (hn : 1 ≤ n) : ymd2ord (ord2ymd n) = n :=
  (ord2ymd_spec n hn).1

lemma ord2ymd_valid (n : ℤ) (hn : 1 ≤ n) : (ord2ymd n).Valid :=
  (ord2ymd_spec n hn).2

lemma ord2ymd_inj {n m : ℤ} (hn : 1 ≤ n) (hm : 1 ≤ m)
    (h : ord2ymd n = ord2ymd m) : n = m := by
  have := ymd2ord_ord2ymd n hn
  have := ymd2ord_ord2ymd m hm
  rw [h] at *
  omega

lemma nextMidnight_eq (d : ℤ) (hd : 1 ≤ d) : nextMidnight d = ⟨d + 1, 0⟩ := by
  unfold nextMidnight
  rw [ymd2ord_ord2ymd d hd]

/-! ### Trace lemmas for the run model -/

lemma range_map_add (a : ℤ) (L : ℕ) :
    (List.range L).map (fun x : ℕ => a + (x : ℤ)) = conseq a L := by
  induction L generalizing a with
  | zero => rfl
  | succ L ih =>
    rw [List.range_succ_eq_map]
    simp only [List.map_cons, Nat.cast_zero, add_zero, List.map_map, conseq]
    congr 1
    rw [← ih (a + 1)]
    apply List.map_congr_left
    intro x _
    simp only [Function.comp_apply]
    push_cast
    ring

lemma planDates_conseq (s e : DT) :
    planDates s e = conseq s.ord (e.ord - s.ord + 1).toNat := by
  unfold planDates
  exact range_map_add s.ord _

lemma updatesOf_append (l1 l2 : List Ev) :
    updatesOf (l1 ++ l2) = updatesOf l1 ++ updatesOf l2 := by
  induction l1 with
  | nil => rfl
  | cons x r ih => cases x <;> simp [updatesOf, ih]

lemma callsOf_append (l1 l2 : List Ev) :
    callsOf (l1 ++ l2) = callsOf l1 ++ callsOf l2 := by
  induction l1 with
  | nil => rfl
  | cons x r ih => cases x <;> simp [callsOf, ih]

lemma updatesOf_interleave (ps : List CallRec) :
    updatesOf (interleave ps) = ps.map (fun c => c.e) := by
  induction ps with
  | nil => rfl
  | cons c r ih => simp [interleave, updatesOf, ih]

lemma callsOf_interleave (ps : List CallRec) :
    callsOf (interleave ps) = ps := by
  induction ps with
  | nil => rfl
  | cons c r ih => simp [interleave, callsOf, updatesOf, ih]

lemma planParts_length (hy : String) (e : DT) :
    ∀ (ds : List ℤ) (st : DT), (planParts hy e ds st).length = ds.length := by
  intro ds
  induction ds with
  | nil => intro st; rfl
  | cons d rest ih =>
    cases rest with
    | nil => intro st; rfl
    | cons d' rest' => intro st; simp [planParts, ih]

lemma planParts_last (hy : String) (e : DT) :
    ∀ (ds : List ℤ) (st : DT), ds ≠ [] →
      ((planParts hy e ds st).map (fun c => c.e)).getLast? = some e := by
  intro ds
  induction ds with
  | nil => intro st h; exact absurd rfl h
  | cons d rest ih =>
    cases rest with
    | nil => intro st _; rfl
    | cons d' rest' =>
      intro st _
      have hrec := ih (nextMidnight d) (by simp)
      simp only [planParts, List.map_cons]
      cases hM : (planParts hy e (d' :: rest') (nextMidnight d)).map (fun c => c.e) with
      | nil => rw [hM] at hrec; simp at hrec
      | cons m M' =>
        rw [hM] at hrec
        rw [List.getLast?_cons_cons]
        exact hrec

lemma runLoop_ok (pipe : ℕ → Bool) (hy : String) (e : DT) :
    ∀ (ds : List ℤ) (st : DT) (k : ℕ),
      (∀ i, i < ds.length → pipe (k + i) = true) →
      runLoop pipe hy e ds st k = (interleave (planParts hy e ds st), true) := by
  intro ds
  induction ds with
  | nil => intro st k _; rfl
  | cons d rest ih =>
    cases rest with
    | nil =>
      intro st k hp
      have h0 : pipe k = true := by simpa using hp 0 (by simp)
      simp [runLoop, planParts, interleave, h0]
    | cons d' rest' =>
      intro st k hp
      have h0 : pipe k = true := by simpa using hp 0 (by simp)
      have ih' := ih (nextMidnight d) (k + 1) (fun i hi => by
        rw [show k + 1 + i = k + (i + 1) by omega]
        exact hp (i + 1) (by simpa using Nat.succ_lt_succ hi))
      simp only [runLoop, h0, if_true, ih']
      simp [planParts, interleave]

lemma runLoop_fail (pipe : ℕ → Bool) (hy : String) (e : DT) :
    ∀ (ds : List ℤ) (st : DT) (k j : ℕ), j < ds.length →
      (∀ i, i < j → pipe (k + i) = true) → pipe (k + j) = false →
      (runLoop pipe hy e ds st k).2 = false ∧
      callsOf (runLoop pipe hy e ds st k).1 = (planParts hy e ds st).take (j + 1) ∧
      updatesOf (runLoop pipe hy e ds st k).1 =
        ((planParts hy e ds st).take j).map (fun c => c.e) := by
  intro ds
  induction ds with
  | nil => intro st k j hj _ _; simp at hj
  | cons d rest ih =>
    cases rest with
    | nil =>
      intro st k j hj hs hf
      have hj0 : j = 0 := by simpa using Nat.lt_one_iff.mp (by simpa using hj)
      subst hj0
      simp only [Nat.add_zero] at hf
      simp [runLoop, planParts, hf, callsOf, updatesOf]
    | cons d' rest' =>
      intro st k j hj hs hf
      cases j with
      | zero =>
        simp only [Nat.add_zero] at hf
        simp [runLoop, planParts, hf, callsOf, updatesOf]
      | succ j' =>
        have h0 : pipe k = true := by simpa using hs 0 (Nat.succ_pos j')
        obtain ⟨hok, hc, hu⟩ := ih (nextMidnight d) (k + 1) j'
          (by simpa using Nat.lt_of_succ_lt_succ hj)
          (fun i hi => by
            rw [show k + 1 + i = k + (i + 1) by omega]
            exact hs (i + 1) (Nat.succ_lt_succ hi))
          (by rw [show k + 1 + j' = k + (j' + 1) by omega]; exact hf)
        simp only [runLoop, h0, if_true]
        refine ⟨hok, ?_, ?_⟩
        · simp [callsOf, planParts, hc]
        · simp [updatesOf, planParts, hu]

lemma runLoop_mono (pipe : ℕ → Bool) (hy : String) (e : DT) :
    ∀ (L : ℕ) (a : ℤ) (st : DT) (k : ℕ), 1 ≤ a →
      st.us ≤ (a + 1) * usPerDay →
      (L = 1 → st.us ≤ e.us) →
      ((a : ℤ) + L - 1 = e.ord) → 0 ≤ e.tod →
      (updatesOf (runLoop pipe hy e (conseq a L) st k).1).Chain'
        (fun u v => u.us ≤ v.us) ∧
      ∀ u ∈ updatesOf (runLoop pipe hy e (conseq a L) st k).1,
        st.us ≤ u.us ∧ u.us ≤ e.us := by
  intro L
  induction L with
  | zero =>
    intro a st k _ _ _ _ _
    simp [conseq, runLoop, updatesOf]
  | succ L ih =>
    intro a st k ha hst h1 hord htod
    cases L with
    | zero =>
      by_cases hp : pipe k = true
      · have hse : st.us ≤ e.us := h1 rfl
        have htr : updatesOf (runLoop pipe hy e (conseq a 1) st k).1 = [e] := by
          simp [conseq, runLoop, hp, updatesOf]
        rw [htr]
        refine ⟨by simp, ?_⟩
        intro u hu
        simp only [List.mem_singleton] at hu
        subst hu
        exact ⟨hse, le_refl _⟩
      · simp only [Bool.not_eq_true] at hp
        have htr : updatesOf (runLoop pipe hy e (conseq a 1) st k).1 = [] := by
          simp [conseq, runLoop, hp, updatesOf]
        rw [htr]
        simp
    | succ L' =>
      by_cases hp : pipe k = true
      case neg =>
        simp only [Bool.not_eq_true] at hp
        simp [conseq, runLoop, hp, updatesOf]
      case pos =>
        have hmid : nextMidnight a = ⟨a + 1, 0⟩ := nextMidnight_eq a ha
        have heord : (a + 1 : ℤ) + (L' + 1 : ℕ) - 1 = e.ord := by
          push_cast at hord ⊢
          omega
        have hstus : (DT.mk (a + 1) 0).us ≤ (a + 1 + 1) * usPerDay := by
          simp only [DT.us, usPerDay]
          omega
        have h1' : (L' + 1 = 1) → (DT.mk (a + 1) 0).us ≤ e.us := by
          intro hL1
          have hL0 : L' = 0 := by omega
          subst hL0
          have : e.ord = a + 1 := by push_cast at heord; omega
          simp only [DT.us, usPerDay]
          rw [this] at *
          simp only [DT.us, usPerDay] at *
          omega
        obtain ⟨ihc, ihb⟩ := ih (a + 1) ⟨a + 1, 0⟩ (k + 1) (by omega) hstus h1' heord htod
        have hunf : runLoop pipe hy e (conseq a (L' + 1 + 1)) st k =
            (.call ⟨folderOf hy (ord2ymd a), st, nextMidnight a⟩ ::
             .upd (nextMidnight a) ::
             (runLoop pipe hy e (conseq (a + 1) (L' + 1)) (nextMidnight a) (k + 1)).1,
             (runLoop pipe hy e (conseq (a + 1) (L' + 1)) (nextMidnight a) (k + 1)).2) := by
          simp [conseq, runLoop, hp]
        rw [hunf, hmid]
        dsimp only
        simp only [updatesOf]
        have hbnd : ∀ u ∈ updatesOf
            (runLoop pipe hy e (conseq (a + 1) (L' + 1)) ⟨a + 1, 0⟩ (k + 1)).1,
            st.us ≤ u.us ∧ u.us ≤ e.us := by
          intro u hu
          obtain ⟨hlo, hhi⟩ := ihb u hu
          refine ⟨le_trans ?_ hlo, hhi⟩
          simp only [DT.us, usPerDay] at hst ⊢
          omega
        constructor
        · rw [List.chain'_cons']
          refine ⟨?_, ihc⟩
          intro y hy'
          have hmem : y ∈ updatesOf
              (runLoop pipe hy e (conseq (a + 1) (L' + 1)) ⟨a + 1, 0⟩ (k + 1)).1 :=
            List.mem_of_mem_head? hy'
          exact (ihb y hmem).1
        · intro u hu
          rcases List.mem_cons.mp hu with hu0 | hur
          · subst hu0
            constructor
            · simpa [DT.us] using hst
            · have : (a + 1 : ℤ) ≤ e.ord := by push_cast at heord; omega
              simp only [DT.us, usPerDay] at *
              omega
          · exact hbnd u hur

lemma runLoop_folders (pipe : ℕ → Bool) (hy : String) (e : DT) :
    ∀ (L : ℕ) (a : ℤ) (st : DT) (k : ℕ), 1 ≤ a → st.ord = a →
      ∀ c ∈ callsOf (runLoop pipe hy e (conseq a L) st k).1,
        c.folder = folderOf hy (ord2ymd c.s.ord) := by
  intro L
  induction L with
  | zero => intro a st k _ _ c hc; simp [conseq, runLoop, callsOf] at hc
  | succ L ih =>
    intro a st k ha hst c hc
    cases L with
    | zero =>
      by_cases hp : pipe k = true
      all_goals
        simp only [Bool.not_eq_true] at *
        simp [conseq, runLoop, hp, callsOf, updatesOf] at hc
        subst hc
        simp [hst]
    | succ L' =>
      by_cases hp : pipe k = true
      case neg =>
        simp only [Bool.not_eq_true] at hp
        simp [conseq, runLoop, hp, callsOf] at hc
        subst hc
        simp [hst]
      case pos =>
        have hmid : nextMidnight a = ⟨a + 1, 0⟩ := nextMidnight_eq a ha
        have hunf : runLoop pipe hy e (conseq a (L' + 1 + 1)) st k =
            (.call ⟨folderOf hy (ord2ymd a), st, nextMidnight a⟩ ::
             .upd (nextMidnight a) ::
             (runLoop pipe hy e (conseq (a + 1) (L' + 1)) (nextMidnight a) (k + 1)).1,
             (runLoop pipe hy e (conseq (a + 1) (L' + 1)) (nextMidnight a) (k + 1)).2) := by
          simp [conseq, runLoop, hp]
        rw [hunf] at hc
        dsimp only at hc
        simp only [callsOf, updatesOf, List.mem_cons] at hc
        rcases hc with hc0 | hcr
        · subst hc0
          simp [hst]
        · rw [hmid] at hcr
          exact ih (a + 1) ⟨a + 1, 0⟩ (k + 1) (by omega) rfl c hcr

/-! ### Branch dispatch helpers for `process_audio_data` -/

lemma processAudioData_sameDay (pipe : ℕ → Bool) (s e : DT) (hy : String)
    (hd : s.pyDay = e.pyDay) (hv : validHydro hy = true) :
    processAudioData pipe s e hy =
      (if pipe 0 then
        ([.call ⟨folderOf hy (ord2ymd s.ord), s, e⟩, .upd e], .ok ())
       else ([.call ⟨folderOf hy (ord2ymd s.ord), s, e⟩], .error .pipeErr)) := by
  simp [processAudioData, hd, hv]

lemma processAudioData_multiDay (pipe : ℕ → Bool) (s e : DT) (hy : String)
    (hd : s.pyDay ≠ e.pyDay) (hv : validHydro hy = true) :
    processAudioData pipe s e hy =
      (if (runLoop pipe hy e (planDates s e) s 0).2 then
        ((runLoop pipe hy e (planDates s e) s 0).1 ++ [.upd e], .ok ())
       else ((runLoop pipe hy e (planDates s e) s 0).1, .error .pipeErr)) := by
  simp [processAudioData, hd, hv]

lemma pyDay_eq_of_ord_eq {s e : DT} (h : ord2ymd s.ord = ord2ymd e.ord) :
    s.pyDay = e.pyDay := by
  unfold DT.pyDay
  rw [h]

lemma ord_lt_of_us_le {s e : DT} (hs : s.Valid) (he : e.Valid)
    (hle : e.us ≤ s.us) (hne : s.ord ≠ e.ord) : e.ord < s.ord := by
  unfold DT.us at hle
  unfold DT.Valid at hs he
  unfold usPerDay at *
  omega

lemma ord_le_of_us_lt {s e : DT} (hs : s.Valid) (he : e.Valid)
    (hlt : s.us < e.us) : s.ord ≤ e.ord := by
  unfold DT.us at hlt
  unfold DT.Valid at hs he
  unfold usPerDay at *
  omega

/-- Shared helper: on an empty or inverted range the code performs no
validation at all — with a succeeding pipeline the call returns normally and
still writes the checkpoint, setting it to `end_time`. -/
lemma run_inverted (pipe : ℕ → Bool) (s e : DT) (hy : String)
    (hv : validHydro hy = true) (hs : s.Valid) (he : e.Valid)
    (hle : e.us ≤ s.us) (hall : ∀ i, pipe i = true) :
    (processAudioData pipe s e hy).2 = .ok () ∧
    updatesOf (processAudioData pipe s e hy).1 = [e] := by
  by_cases hd : s.pyDay = e.pyDay
  · rw [processAudioData_sameDay pipe s e hy hd hv]
    simp [hall 0, updatesOf]
  · have hne : s.ord ≠ e.ord := fun h => hd (pyDay_eq_of_ord_eq (by rw [h]))
    have hlt : e.ord < s.ord := ord_lt_of_us_le hs he hle hne
    have hpd : planDates s e = [] := by
      unfold planDates
      have h0 : (e.ord - s.ord + 1).toNat = 0 := by omega
      rw [h0]
      rfl
    rw [processAudioData_multiDay pipe s e hy hd hv, hpd]
    simp [runLoop, updatesOf]

/-! ### Claim theorems -/

/-- C1 (code bug): `process_audio_data` compares only the day-of-month
fields (`start_time.day != end_time.day`, line 71).  For the range
2026-01-15T10:00 → 2026-02-15T10:00 — different local calendar days,
31 days apart, equal day fields — it takes the single-partition branch:
one pipeline call spanning the whole month into the folder of the start
date, and no per-day enumeration, contrary to the claim (and to the
code's own "different days" comment). -/
theorem C1_day_of_month_aliasing :
    ord2ymd (ymd2ord ⟨2026, 1, 15⟩) ≠ ord2ymd (ymd2ord ⟨2026, 2, 15⟩) ∧
    (DT.mk (ymd2ord ⟨2026, 1, 15⟩) 36000000000).us <
      (DT.mk (ymd2ord ⟨2026, 2, 15⟩) 36000000000).us ∧
    (processAudioData (fun _ => true) ⟨ymd2ord ⟨2026, 1, 15⟩, 36000000000⟩
        ⟨ymd2ord ⟨2026, 2, 15⟩, 36000000000⟩ "BUSH_POINT").1 =
      [.call ⟨folderOf "BUSH_POINT" (ord2ymd (ymd2ord ⟨2026, 1, 15⟩)),
          ⟨ymd2ord ⟨2026, 1, 15⟩, 36000000000⟩,
          ⟨ymd2ord ⟨2026, 2, 15⟩, 36000000000⟩⟩,
       .upd ⟨ymd2ord ⟨2026, 2, 15⟩, 36000000000⟩] := by decide

/-- C2: when start and end lie on the same local calendar day, the single-day
branch runs: exactly one pipeline invocation, with exactly the bounds
`(start_time, end_time)`. -/
theorem C2_single_day (pipe : ℕ → Bool) (s e : DT) (hy : String)
    (hv : validHydro hy = true) (hday : ord2ymd s.ord = ord2ymd e.ord)
    (hlt : s.us < e.us) :
    callsOf (processAudioData pipe s e hy).1 =
      [⟨folderOf hy (ord2ymd s.ord), s, e⟩] := by
  rw [processAudioData_sameDay pipe s e hy (pyDay_eq_of_ord_eq hday) hv]
  by_cases hp : pipe 0 = true <;> simp [hp, callsOf, updatesOf]

theorem C2_single_day_witness :
    validHydro "BUSH_POINT" = true ∧
    ord2ymd (DT.mk (ymd2ord ⟨2026, 1, 15⟩) 36000000000).ord =
      ord2ymd (DT.mk (ymd2ord ⟨2026, 1, 15⟩) 50400000000).ord ∧
    (DT.mk (ymd2ord ⟨2026, 1, 15⟩) 36000000000).us <
      (DT.mk (ymd2ord ⟨2026, 1, 15⟩) 50400000000).us ∧
    callsOf (processAudioData (fun _ => true)
        ⟨ymd2ord ⟨2026, 1, 15⟩, 36000000000⟩
        ⟨ymd2ord ⟨2026, 1, 15⟩, 50400000000⟩ "BUSH_POINT").1 =
      [⟨folderOf "BUSH_POINT" (ord2ymd (ymd2ord ⟨2026, 1, 15⟩)),
        ⟨ymd2ord ⟨2026, 1, 15⟩, 36000000000⟩,
        ⟨ymd2ord ⟨2026, 1, 15⟩, 50400000000⟩⟩] :=
  ⟨by decide, by decide, by decide,
    C2_single_day (fun _ => true) _ _ "BUSH_POINT" (by decide) (by decide) (by decide)⟩

/-- C3 (counterexample): on an inverted range (end < start, same day) the
code raises no error — there is no `InvalidRangeError` anywhere — and it
mutates state: the pipeline is invoked and the checkpoint is written. -/
theorem C3_counterexample :
    (processAudioData (fun _ => true) ⟨ymd2ord ⟨2026, 1, 15⟩, 36000000000⟩
        ⟨ymd2ord ⟨2026, 1, 15⟩, 32400000000⟩ "BUSH_POINT").2 = .ok () ∧
    updatesOf (processAudioData (fun _ => true)
        ⟨ymd2ord ⟨2026, 1, 15⟩, 36000000000⟩
        ⟨ymd2ord ⟨2026, 1, 15⟩, 32400000000⟩ "BUSH_POINT").1 ≠ [] := by decide

/-- C3 (amended): `process_audio_data` performs no range validation.  With
`end_time ≤ start_time` and a succeeding pipeline it completes normally
(no `InvalidRangeError` exists in the program) and still mutates the
checkpoint, writing `end_time` to it. -/
theorem C3_no_range_validation (pipe : ℕ → Bool) (s e : DT) (hy : String)
    (hv : validHydro hy = true) (hs : s.Valid) (he : e.Valid)
    (hle : e.us ≤ s.us) (hall : ∀ i, pipe i = true) :
    (processAudioData pipe s e hy).2 = .ok () ∧
    updatesOf (processAudioData pipe s e hy).1 = [e] :=
  run_inverted pipe s e hy hv hs he hle hall

theorem C3_no_range_validation_witness :
    validHydro "BUSH_POINT" = true ∧
    (DT.mk (ymd2ord ⟨2026, 1, 15⟩) 36000000000).Valid ∧
    (DT.mk (ymd2ord ⟨2026, 1, 15⟩) 32400000000).Valid ∧
    (DT.mk (ymd2ord ⟨2026, 1, 15⟩) 32400000000).us ≤
      (DT.mk (ymd2ord ⟨2026, 1, 15⟩) 36000000000).us ∧
    ((processAudioData (fun _ => true) ⟨ymd2ord ⟨2026, 1, 15⟩, 36000000000⟩
        ⟨ymd2ord ⟨2026, 1, 15⟩, 32400000000⟩ "BUSH_POINT").2 = .ok () ∧
     updatesOf (processAudioData (fun _ => true)
        ⟨ymd2ord ⟨2026, 1, 15⟩, 36000000000⟩
        ⟨ymd2ord ⟨2026, 1, 15⟩, 32400000000⟩ "BUSH_POINT").1 =
       [⟨ymd2ord ⟨2026, 1, 15⟩, 32400000000⟩]) :=
  ⟨by decide, by decide, by decide, by decide,
    C3_no_range_validation (fun _ => true) _ _ "BUSH_POINT" (by decide) (by decide)
      (by decide) (by decide) (fun _ => rfl)⟩


/-- C4 (amended): `main` computes `effective_start = last_processed or
(now - 1h)` and `effective_end = now`, but has no no-op guard: when
`effective_end ≤ effective_start` it still calls `process_audio_data`,
which (with a succeeding pipeline) returns normally and rewrites the
checkpoint to `now`. -/
theorem C4_effective_range_no_guard (pipe : ℕ → Bool) (hy : String) (now : DT)
    (loaded : Option DT) (c : DT) (hv : validHydro hy = true) (hn : now.Valid) :
    (mainRun pipe hy now loaded).effStart = loaded.getD (dtSubUs now lookbackUs) ∧
    (mainRun pipe hy now loaded).effEnd = now ∧
    (loaded = some c → c.Valid → now.us ≤ c.us → (∀ i, pipe i = true) →
      (mainRun pipe hy now loaded).res = .ok () ∧
      updatesOf (mainRun pipe hy now loaded).trace = [now]) := by
  refine ⟨rfl, rfl, ?_⟩
  intro hl hc hle hall
  subst hl
  exact run_inverted pipe c now hy hv hc hn hle hall

theorem C4_effective_range_no_guard_witness :
    validHydro "BUSH_POINT" = true ∧
    (DT.mk (ymd2ord ⟨2026, 1, 15⟩) 43200000000).Valid ∧
    ((mainRun (fun _ => true) "BUSH_POINT" ⟨ymd2ord ⟨2026, 1, 15⟩, 43200000000⟩
        (some ⟨ymd2ord ⟨2026, 1, 15⟩, 50400000000⟩)).effStart =
      (some (DT.mk (ymd2ord ⟨2026, 1, 15⟩) 50400000000)).getD
        (dtSubUs ⟨ymd2ord ⟨2026, 1, 15⟩, 43200000000⟩ lookbackUs) ∧
     (mainRun (fun _ => true) "BUSH_POINT" ⟨ymd2ord ⟨2026, 1, 15⟩, 43200000000⟩
        (some ⟨ymd2ord ⟨2026, 1, 15⟩, 50400000000⟩)).effEnd =
      ⟨ymd2ord ⟨2026, 1, 15⟩, 43200000000⟩ ∧
     (some (DT.mk (ymd2ord ⟨2026, 1, 15⟩) 50400000000) =
        some (DT.mk (ymd2ord ⟨2026, 1, 15⟩) 50400000000) →
      (DT.mk (ymd2ord ⟨2026, 1, 15⟩) 50400000000).Valid →
      (DT.mk (ymd2ord ⟨2026, 1, 15⟩) 43200000000).us ≤
        (DT.mk (ymd2ord ⟨2026, 1, 15⟩) 50400000000).us →
      (∀ i : ℕ, (fun _ => true) i = true) →
      (mainRun (fun _ => true) "BUSH_POINT" ⟨ymd2ord ⟨2026, 1, 15⟩, 43200000000⟩
          (some ⟨ymd2ord ⟨2026, 1, 15⟩, 50400000000⟩)).res = .ok () ∧
      updatesOf (mainRun (fun _ => true) "BUSH_POINT"
          ⟨ymd2ord ⟨2026, 1, 15⟩, 43200000000⟩
          (some ⟨ymd2ord ⟨2026, 1, 15⟩, 50400000000⟩)).trace =
        [⟨ymd2ord ⟨2026, 1, 15⟩, 43200000000⟩])) :=
  ⟨by decide, by decide,
    C4_effective_range_no_guard (fun _ => true) "BUSH_POINT"
      ⟨ymd2ord ⟨2026, 1, 15⟩, 43200000000⟩
      (some ⟨ymd2ord ⟨2026, 1, 15⟩, 50400000000⟩)
      ⟨ymd2ord ⟨2026, 1, 15⟩, 50400000000⟩ (by decide) (by decide)⟩

/-- C4 (counterexample): a future checkpoint makes `effective_end ≤
effective_start`, yet the controller is no no-op: the pipeline is invoked
once and the checkpoint written. -/
theorem C4_counterexample :
    (mainRun (fun _ => true) "BUSH_POINT" ⟨ymd2ord ⟨2026, 1, 15⟩, 43200000000⟩
        (some ⟨ymd2ord ⟨2026, 1, 15⟩, 50400000000⟩)).effEnd.us ≤
      (mainRun (fun _ => true) "BUSH_POINT" ⟨ymd2ord ⟨2026, 1, 15⟩, 43200000000⟩
        (some ⟨ymd2ord ⟨2026, 1, 15⟩, 50400000000⟩)).effStart.us ∧
    (callsOf (mainRun (fun _ => true) "BUSH_POINT"
        ⟨ymd2ord ⟨2026, 1, 15⟩, 43200000000⟩
        (some ⟨ymd2ord ⟨2026, 1, 15⟩, 50400000000⟩)).trace).length = 1 ∧
    updatesOf (mainRun (fun _ => true) "BUSH_POINT"
        ⟨ymd2ord ⟨2026, 1, 15⟩, 43200000000⟩
        (some ⟨ymd2ord ⟨2026, 1, 15⟩, 50400000000⟩)).trace =
      [⟨ymd2ord ⟨2026, 1, 15⟩, 43200000000⟩] := by decide

/-- C5 (counterexample): a run whose `now` is one hour before the stored
checkpoint stores a strictly smaller value: `Bookmark.update` is called
with 11:00 after the checkpoint held 12:00. -/
theorem C5_counterexample :
    afterRun none (mainRun (fun _ => true) "BUSH_POINT"
        ⟨ymd2ord ⟨2026, 1, 15⟩, 43200000000⟩ none).trace =
      some ⟨ymd2ord ⟨2026, 1, 15⟩, 43200000000⟩ ∧
    updatesOf (mainRun (fun _ => true) "BUSH_POINT"
        ⟨ymd2ord ⟨2026, 1, 15⟩, 39600000000⟩
        (some ⟨ymd2ord ⟨2026, 1, 15⟩, 43200000000⟩)).trace =
      [⟨ymd2ord ⟨2026, 1, 15⟩, 39600000000⟩] ∧
    (DT.mk (ymd2ord ⟨2026, 1, 15⟩) 39600000000).us <
      (DT.mk (ymd2ord ⟨2026, 1, 15⟩) 43200000000).us := by decide

/-- C5 (amended): within any single run whose end is strictly after its
start (equivalently, `now` strictly after the loaded checkpoint), the values
passed to `Bookmark.update` are monotonically non-decreasing and all lie in
`[start, end]` — in particular none is below the pre-run checkpoint — for
every pipeline behavior, including runs failing partway. -/
theorem C5_updates_monotone (pipe : ℕ → Bool) (s e : DT) (hy : String)
    (hv : validHydro hy = true) (hs : s.Valid) (he : e.Valid) (hlt : s.us < e.us) :
    (updatesOf (processAudioData pipe s e hy).1).Chain' (fun u v => u.us ≤ v.us) ∧
    ∀ u ∈ updatesOf (processAudioData pipe s e hy).1,
      s.us ≤ u.us ∧ u.us ≤ e.us := by
  obtain ⟨hs1, hs2, hs3⟩ := hs
  obtain ⟨he1, he2, he3⟩ := he
  by_cases hd : s.pyDay = e.pyDay
  · rw [processAudioData_sameDay pipe s e hy hd hv]
    by_cases hp : pipe 0 = true
    · simp only [hp, if_true, updatesOf, List.chain'_singleton, true_and]
      intro u hu
      simp only [List.mem_singleton] at hu
      subst hu
      exact ⟨le_of_lt hlt, le_refl _⟩
    · simp only [Bool.not_eq_true] at hp
      simp [hp, updatesOf]
  · rw [processAudioData_multiDay pipe s e hy hd hv]
    have hse : s.ord ≤ e.ord := by
      unfold DT.us at hlt
      unfold usPerDay at *
      by_contra hcon
      push_neg at hcon
      omega
    have hL : ((e.ord - s.ord + 1).toNat : ℤ) = e.ord - s.ord + 1 := by omega
    obtain ⟨hc, hb⟩ := runLoop_mono pipe hy e ((e.ord - s.ord + 1).toNat) s.ord s 0
      hs1
      (by unfold DT.us usPerDay at *; omega)
      (fun _ => le_of_lt hlt)
      (by rw [hL]; ring)
      he2
    rw [← planDates_conseq s e] at hc hb
    by_cases hr : (runLoop pipe hy e (planDates s e) s 0).2 = true
    · simp only [hr, if_true]
      rw [updatesOf_append]
      rw [show updatesOf [Ev.upd e] = [e] from rfl]
      constructor
      · rw [List.chain'_append]
        refine ⟨hc, by simp, ?_⟩
        intro x hx y hy'
        simp only [List.head?_cons, Option.mem_def, Option.some.injEq] at hy'
        subst hy'
        exact (hb x (List.mem_of_mem_getLast? hx)).2
      · intro u hu
        rcases List.mem_append.mp hu with h | h
        · exact hb u h
        · simp only [List.mem_singleton] at h
          subst h
          exact ⟨le_of_lt hlt, le_refl _⟩
    · simp only [Bool.not_eq_true] at hr
      simp only [hr, Bool.false_eq_true, if_false]
      exact ⟨hc, hb⟩

theorem C5_updates_monotone_witness :
    validHydro "BUSH_POINT" = true ∧
    (DT.mk (ymd2ord ⟨2026, 1, 15⟩) 79200000000).Valid ∧
    (DT.mk (ymd2ord ⟨2026, 1, 16⟩) 7200000000).Valid ∧
    (DT.mk (ymd2ord ⟨2026, 1, 15⟩) 79200000000).us <
      (DT.mk (ymd2ord ⟨2026, 1, 16⟩) 7200000000).us ∧
    ((updatesOf (processAudioData (fun _ => true)
        ⟨ymd2ord ⟨2026, 1, 15⟩, 79200000000⟩
        ⟨ymd2ord ⟨2026, 1, 16⟩, 7200000000⟩ "BUSH_POINT").1).Chain'
          (fun u v => u.us ≤ v.us) ∧
     ∀ u ∈ updatesOf (processAudioData (fun _ => true)
        ⟨ymd2ord ⟨2026, 1, 15⟩, 79200000000⟩
        ⟨ymd2ord ⟨2026, 1, 16⟩, 7200000000⟩ "BUSH_POINT").1,
       (DT.mk (ymd2ord ⟨2026, 1, 15⟩) 79200000000).us ≤ u.us ∧
       u.us ≤ (DT.mk (ymd2ord ⟨2026, 1, 16⟩) 7200000000).us) :=
  ⟨by decide, by decide, by decide, by decide,
    C5_updates_monotone (fun _ => true) _ _ "BUSH_POINT" (by decide) (by decide)
      (by decide) (by decide)⟩

/-- C6: in a multi-partition run where the pipeline call for partition `k`
fails, the exception stops everything: the run errors, exactly the first `k`
pipeline calls happened, only the first `k-1` bookmark updates happened, and
the checkpoint afterwards equals partition `k-1`'s end (or the pre-run value
when `k = 1`). -/
theorem C6_failure_stops (pipe : ℕ → Bool) (s e : DT) (hy : String) (k : ℕ)
    (hv : validHydro hy = true) (hd : s.pyDay ≠ e.pyDay) (hk1 : 1 ≤ k)
    (hk : k ≤ (planParts hy e (planDates s e) s).length)
    (hsucc : ∀ i, i < k - 1 → pipe i = true) (hfail : pipe (k - 1) = false) :
    (processAudioData pipe s e hy).2 = .error .pipeErr ∧
    callsOf (processAudioData pipe s e hy).1 =
      (planParts hy e (planDates s e) s).take k ∧
    updatesOf (processAudioData pipe s e hy).1 =
      ((planParts hy e (planDates s e) s).take (k - 1)).map (fun c => c.e) ∧
    ∀ pre : Option DT,
      afterRun pre (processAudioData pipe s e hy).1 =
        (((planParts hy e (planDates s e) s).take (k - 1)).map
          (fun c => c.e)).getLast?.or pre := by
  have hlen : (planParts hy e (planDates s e) s).length = (planDates s e).length :=
    planParts_length hy e _ s
  have hjlen : k - 1 < (planDates s e).length := by omega
  obtain ⟨hok, hcalls, hupds⟩ := runLoop_fail pipe hy e (planDates s e) s 0 (k - 1)
    hjlen
    (fun i hi => by rw [Nat.zero_add]; exact hsucc i hi)
    (by rw [Nat.zero_add]; exact hfail)
  have htr : processAudioData pipe s e hy =
      ((runLoop pipe hy e (planDates s e) s 0).1, .error .pipeErr) := by
    rw [processAudioData_multiDay pipe s e hy hd hv]
    simp [hok]
  rw [htr]
  have hk' : k - 1 + 1 = k := by omega
  rw [hk'] at hcalls
  refine ⟨rfl, hcalls, hupds, ?_⟩
  intro pre
  unfold afterRun
  rw [hupds]

theorem C6_failure_stops_witness :
    validHydro "BUSH_POINT" = true ∧
    (DT.mk (ymd2ord ⟨2026, 1, 15⟩) 79200000000).pyDay ≠
      (DT.mk (ymd2ord ⟨2026, 1, 17⟩) 7200000000).pyDay ∧
    1 ≤ 2 ∧
    2 ≤ (planParts "BUSH_POINT" ⟨ymd2ord ⟨2026, 1, 17⟩, 7200000000⟩
        (planDates ⟨ymd2ord ⟨2026, 1, 15⟩, 79200000000⟩
          ⟨ymd2ord ⟨2026, 1, 17⟩, 7200000000⟩)
        ⟨ymd2ord ⟨2026, 1, 15⟩, 79200000000⟩).length ∧
    ((processAudioData (fun i => i == 0) ⟨ymd2ord ⟨2026, 1, 15⟩, 79200000000⟩
        ⟨ymd2ord ⟨2026, 1, 17⟩, 7200000000⟩ "BUSH_POINT").2 = .error .pipeErr ∧
     callsOf (processAudioData (fun i => i == 0)
        ⟨ymd2ord ⟨2026, 1, 15⟩, 79200000000⟩
        ⟨ymd2ord ⟨2026, 1, 17⟩, 7200000000⟩ "BUSH_POINT").1 =
      (planParts "BUSH_POINT" ⟨ymd2ord ⟨2026, 1, 17⟩, 7200000000⟩
        (planDates ⟨ymd2ord ⟨2026, 1, 15⟩, 79200000000⟩
          ⟨ymd2ord ⟨2026, 1, 17⟩, 7200000000⟩)
        ⟨ymd2ord ⟨2026, 1, 15⟩, 79200000000⟩).take 2 ∧
     updatesOf (processAudioData (fun i => i == 0)
        ⟨ymd2ord ⟨2026, 1, 15⟩, 79200000000⟩
        ⟨ymd2ord ⟨2026, 1, 17⟩, 7200000000⟩ "BUSH_POINT").1 =
      ((planParts "BUSH_POINT" ⟨ymd2ord ⟨2026, 1, 17⟩, 7200000000⟩
        (planDates ⟨ymd2ord ⟨2026, 1, 15⟩, 79200000000⟩
          ⟨ymd2ord ⟨2026, 1, 17⟩, 7200000000⟩)
        ⟨ymd2ord ⟨2026, 1, 15⟩, 79200000000⟩).take 1).map (fun c => c.e) ∧
     afterRun (some ⟨ymd2ord ⟨2026, 1, 15⟩, 79200000000⟩)
        (processAudioData (fun i => i == 0)
          ⟨ymd2ord ⟨2026, 1, 15⟩, 79200000000⟩
          ⟨ymd2ord ⟨2026, 1, 17⟩, 7200000000⟩ "BUSH_POINT").1 =
      (((planParts "BUSH_POINT" ⟨ymd2ord ⟨2026, 1, 17⟩, 7200000000⟩
        (planDates ⟨ymd2ord ⟨2026, 1, 15⟩, 79200000000⟩
          ⟨ymd2ord ⟨2026, 1, 17⟩, 7200000000⟩)
        ⟨ymd2ord ⟨2026, 1, 15⟩, 79200000000⟩).take 1).map
          (fun c => c.e)).getLast?.or (some ⟨ymd2ord ⟨2026, 1, 15⟩, 79200000000⟩)) := by
  refine ⟨by decide, by decide, by decide, by decide, ?_⟩
  obtain ⟨h1, h2, h3, h4⟩ := C6_failure_stops (fun i => i == 0)
    ⟨ymd2ord ⟨2026, 1, 15⟩, 79200000000⟩ ⟨ymd2ord ⟨2026, 1, 17⟩, 7200000000⟩
    "BUSH_POINT" 2 (by decide) (by decide) (by decide) (by decide)
    (by decide) (by decide)
  exact ⟨h1, h2, h3, h4 (some ⟨ymd2ord ⟨2026, 1, 15⟩, 79200000000⟩)⟩

/-- C7: on a fully successful multi-day run the trace is exactly
"pipeline call, then bookmark update to that partition's end" for each
planned partition in order, followed by one final update to `end_time`;
the last partition's end is `end_time` itself, and the checkpoint finishes
equal to `end_time`. -/
theorem C7_success_checkpoints (pipe : ℕ → Bool) (s e : DT) (hy : String)
    (hv : validHydro hy = true) (hs : s.Valid) (he : e.Valid)
    (hlt : s.us < e.us) (hd : s.pyDay ≠ e.pyDay) (hall : ∀ i, pipe i = true) :
    (processAudioData pipe s e hy).2 = .ok () ∧
    (processAudioData pipe s e hy).1 =
      interleave (planParts hy e (planDates s e) s) ++ [.upd e] ∧
    ((planParts hy e (planDates s e) s).map (fun c => c.e)).getLast? = some e ∧
    ∀ pre : Option DT, afterRun pre (processAudioData pipe s e hy).1 = some e := by
  have hloop := runLoop_ok pipe hy e (planDates s e) s 0
    (fun i _ => by rw [Nat.zero_add]; exact hall i)
  have htr : processAudioData pipe s e hy =
      (interleave (planParts hy e (planDates s e) s) ++ [.upd e], .ok ()) := by
    rw [processAudioData_multiDay pipe s e hy hd hv, hloop]
    simp
  rw [htr]
  have hne : planDates s e ≠ [] := by
    rw [planDates_conseq]
    have hse : s.ord ≤ e.ord := ord_le_of_us_lt hs he hlt
    cases hE : (e.ord - s.ord + 1).toNat with
    | zero => omega
    | succ L => simp [conseq]
  have hlast := planParts_last hy e (planDates s e) s hne
  refine ⟨rfl, rfl, hlast, ?_⟩
  intro pre
  unfold afterRun
  rw [updatesOf_append, updatesOf_interleave,
    show updatesOf [Ev.upd e] = [e] from rfl, List.getLast?_concat]
  rfl

theorem C7_success_checkpoints_witness :
    validHydro "BUSH_POINT" = true ∧
    (DT.mk (ymd2ord ⟨2026, 1, 15⟩) 79200000000).Valid ∧
    (DT.mk (ymd2ord ⟨2026, 1, 16⟩) 7200000000).Valid ∧
    (DT.mk (ymd2ord ⟨2026, 1, 15⟩) 79200000000).us <
      (DT.mk (ymd2ord ⟨2026, 1, 16⟩) 7200000000).us ∧
    (DT.mk (ymd2ord ⟨2026, 1, 15⟩) 79200000000).pyDay ≠
      (DT.mk (ymd2ord ⟨2026, 1, 16⟩) 7200000000).pyDay ∧
    ((processAudioData (fun _ => true) ⟨ymd2ord ⟨2026, 1, 15⟩, 79200000000⟩
        ⟨ymd2ord ⟨2026, 1, 16⟩, 7200000000⟩ "BUSH_POINT").2 = .ok () ∧
     (processAudioData (fun _ => true) ⟨ymd2ord ⟨2026, 1, 15⟩, 79200000000⟩
        ⟨ymd2ord ⟨2026, 1, 16⟩, 7200000000⟩ "BUSH_POINT").1 =
      interleave (planParts "BUSH_POINT" ⟨ymd2ord ⟨2026, 1, 16⟩, 7200000000⟩
        (planDates ⟨ymd2ord ⟨2026, 1, 15⟩, 79200000000⟩
          ⟨ymd2ord ⟨2026, 1, 16⟩, 7200000000⟩)
        ⟨ymd2ord ⟨2026, 1, 15⟩, 79200000000⟩) ++
        [.upd ⟨ymd2ord ⟨2026, 1, 16⟩, 7200000000⟩] ∧
     ((planParts "BUSH_POINT" ⟨ymd2ord ⟨2026, 1, 16⟩, 7200000000⟩
        (planDates ⟨ymd2ord ⟨2026, 1, 15⟩, 79200000000⟩
          ⟨ymd2ord ⟨2026, 1, 16⟩, 7200000000⟩)
        ⟨ymd2ord ⟨2026, 1, 15⟩, 79200000000⟩).map (fun c => c.e)).getLast? =
      some ⟨ymd2ord ⟨2026, 1, 16⟩, 7200000000⟩ ∧
     afterRun none (processAudioData (fun _ => true)
        ⟨ymd2ord ⟨2026, 1, 15⟩, 79200000000⟩
        ⟨ymd2ord ⟨2026, 1, 16⟩, 7200000000⟩ "BUSH_POINT").1 =
      some ⟨ymd2ord ⟨2026, 1, 16⟩, 7200000000⟩) := by
  refine ⟨by decide, by decide, by decide, by decide, by decide, ?_⟩
  obtain ⟨h1, h2, h3, h4⟩ := C7_success_checkpoints (fun _ => true)
    ⟨ymd2ord ⟨2026, 1, 15⟩, 79200000000⟩ ⟨ymd2ord ⟨2026, 1, 16⟩, 7200000000⟩
    "BUSH_POINT" (by decide) (by decide) (by decide) (by decide) (by decide)
    (fun _ => rfl)
  exact ⟨h1, h2, h3, h4 none⟩


/-! ### Round-trip of the textual layer -/

lemma readD_digitC (n : ℕ) : readD (digitC n) = some (n % 10) := by
  unfold digitC
  have h : n % 10 < 10 := Nat.mod_lt _ (by norm_num)
  set m := n % 10 with hm
  clear_value m
  interval_cases m <;> decide

lemma read2_pad2 (n : ℕ) (h : n < 100) (r : List Char) :
    read2 (pad2 n ++ r) = some (n, r) := by
  show read2 (digitC (n / 10) :: digitC n :: r) = some (n, r)
  simp only [read2, readD_digitC]
  have h10 : 10 * (n / 10 % 10) + n % 10 = n := by omega
  rw [h10]

lemma read2_pad2_nil (n : ℕ) (h : n < 100) : read2 (pad2 n) = some (n, []) := by
  have := read2_pad2 n h []
  simpa using this

lemma read4_pad4 (n : ℕ) (h : n < 10000) (r : List Char) :
    read4 (pad4 n ++ r) = some (n, r) := by
  show read4 (digitC (n / 1000) :: digitC (n / 100) :: digitC (n / 10) ::
    digitC n :: r) = some (n, r)
  simp only [read4, readD_digitC]
  have h10 : 1000 * (n / 1000 % 10) + 100 * (n / 100 % 10) + 10 * (n / 10 % 10) +
      n % 10 = n := by omega
  rw [h10]

lemma read6_pad6 (n : ℕ) (h : n < 1000000) (r : List Char) :
    read6 (pad6 n ++ r) = some (n, r) := by
  show read6 (digitC (n / 100000) :: digitC (n / 10000) :: digitC (n / 1000) ::
    digitC (n / 100) :: digitC (n / 10) :: digitC n :: r) = some (n, r)
  simp only [read6, readD_digitC]
  have h10 : 100000 * (n / 100000 % 10) + 10000 * (n / 10000 % 10) +
      1000 * (n / 1000 % 10) + 100 * (n / 100 % 10) + 10 * (n / 10 % 10) +
      n % 10 = n := by omega
  rw [h10]

lemma expectC_cons (c : Char) (r : List Char) : expectC c (c :: r) = some r := by
  simp [expectC]

lemma parseOff_round (off : ℤ) (h1 : -1439 ≤ off) (h2 : off ≤ 1439) :
    parseOff ((if off < 0 then '-' else '+') ::
      (pad2 (off.natAbs / 60) ++ ':' :: pad2 (off.natAbs % 60))) = some off := by
  have hh : off.natAbs / 60 < 100 := by omega
  have hm : off.natAbs % 60 < 100 := by omega
  have hsum : 60 * (off.natAbs / 60) + off.natAbs % 60 = off.natAbs := by omega
  by_cases hneg : off < 0
  · rw [if_pos hneg]
    unfold parseOff
    dsimp only
    rw [if_pos (Or.inr rfl)]
    rw [read2_pad2 _ hh]
    dsimp only
    rw [expectC_cons]
    dsimp only
    rw [read2_pad2_nil _ hm]
    dsimp only
    rw [if_pos rfl, if_pos rfl]
    congr 1
    omega
  · rw [if_neg hneg]
    unfold parseOff
    dsimp only
    rw [if_pos (Or.inl rfl)]
    rw [read2_pad2 _ hh]
    dsimp only
    rw [expectC_cons]
    dsimp only
    rw [read2_pad2_nil _ hm]
    dsimp only
    rw [if_pos rfl, if_neg (by decide : ¬('+' : Char) = '-')]
    congr 1
    omega

lemma parseIso_isoChars (t : PyDateTime) (h : t.Valid) :
    parseIso (isoChars t) = some t := by
  obtain ⟨y, mo, d, hh, mi, ss, us, off⟩ := t
  obtain ⟨h1, h2, h3, h4, h5, h6, h7, h8, h9, h10, h11, h12⟩ := h
  dsimp only at *
  unfold isoChars parseIso
  dsimp only
  rw [read4_pad4 _ (by omega)]
  dsimp only
  rw [expectC_cons]
  dsimp only
  rw [read2_pad2 _ (by omega)]
  dsimp only
  rw [expectC_cons]
  dsimp only
  rw [read2_pad2 _ (by omega)]
  dsimp only
  rw [expectC_cons]
  dsimp only
  unfold parseTimePart
  rw [read2_pad2 _ (by omega)]
  dsimp only
  rw [expectC_cons]
  dsimp only
  rw [read2_pad2 _ (by omega)]
  dsimp only
  rw [expectC_cons]
  dsimp only
  rw [read2_pad2 _ (by omega)]
  dsimp only
  have hoff := parseOff_round off h11 h12
  have hsgn : ((if off < 0 then '-' else '+') : Char) ≠ '.' := by
    split_ifs <;> decide
  by_cases hus : us = 0
  · rw [if_pos hus]
    rw [List.nil_append]
    unfold parseUsec
    dsimp only
    rw [if_neg hsgn]
    dsimp only
    rw [hoff]
    dsimp only
    rw [hus]
  · rw [if_neg hus]
    simp only [List.cons_append]
    unfold parseUsec
    dsimp only
    rw [if_pos rfl]
    rw [read6_pad6 _ (by omega)]
    dsimp only
    rw [hoff]

lemma eatLit_self (p l : List Char) : eatLit p (p ++ l) = some l := by
  induction p with
  | nil => rfl
  | cons c cs ih => simp [eatLit, ih]

lemma noq_append {l1 l2 : List Char} (a1 : ∀ c ∈ l1, c ≠ '"')
    (a2 : ∀ c ∈ l2, c ≠ '"') : ∀ c ∈ l1 ++ l2, c ≠ '"' := by
  intro c hc
  rcases List.mem_append.mp hc with h | h
  · exact a1 c h
  · exact a2 c h

lemma noq_cons {a : Char} {l : List Char} (ha : a ≠ '"')
    (hl : ∀ c ∈ l, c ≠ '"') : ∀ c ∈ a :: l, c ≠ '"' := by
  intro c hc
  rcases List.mem_cons.mp hc with h | h
  · rw [h]; exact ha
  · exact hl c h

lemma noq_nil : ∀ c ∈ ([] : List Char), c ≠ '"' := by
  intro c hc
  simp at hc

lemma digitC_ne_quote (n : ℕ) : digitC n ≠ '"' := by
  unfold digitC
  have h : n % 10 < 10 := Nat.mod_lt _ (by norm_num)
  set m := n % 10 with hm
  clear_value m
  interval_cases m <;> decide

lemma noq_pad2 (n : ℕ) : ∀ c ∈ pad2 n, c ≠ '"' :=
  noq_cons (digitC_ne_quote _) (noq_cons (digitC_ne_quote _) noq_nil)

lemma noq_pad4 (n : ℕ) : ∀ c ∈ pad4 n, c ≠ '"' :=
  noq_cons (digitC_ne_quote _) (noq_cons (digitC_ne_quote _)
    (noq_cons (digitC_ne_quote _) (noq_cons (digitC_ne_quote _) noq_nil)))

lemma noq_pad6 (n : ℕ) : ∀ c ∈ pad6 n, c ≠ '"' :=
  noq_cons (digitC_ne_quote _) (noq_cons (digitC_ne_quote _)
    (noq_cons (digitC_ne_quote _) (noq_cons (digitC_ne_quote _)
      (noq_cons (digitC_ne_quote _) (noq_cons (digitC_ne_quote _) noq_nil)))))

lemma isoChars_no_quote (t : PyDateTime) : ∀ c ∈ isoChars t, c ≠ '"' := by
  unfold isoChars
  refine noq_append (noq_pad4 _) (noq_cons (by decide) ?_)
  refine noq_append (noq_pad2 _) (noq_cons (by decide) ?_)
  refine noq_append (noq_pad2 _) (noq_cons (by decide) ?_)
  refine noq_append (noq_pad2 _) (noq_cons (by decide) ?_)
  refine noq_append (noq_pad2 _) (noq_cons (by decide) ?_)
  refine noq_append (noq_pad2 _) ?_
  refine noq_append ?_ ?_
  · by_cases h : t.usec = 0
    · rw [if_pos h]
      exact noq_nil
    · rw [if_neg h]
      exact noq_cons (by decide) (noq_pad6 _)
  · refine noq_cons ?_ (noq_append (noq_pad2 _) (noq_cons (by decide) (noq_pad2 _)))
    by_cases h : t.offMin < 0
    · rw [if_pos h]
      decide
    · rw [if_neg h]
      decide

lemma takeStr_no_quote (v r : List Char) (hv : ∀ c ∈ v, c ≠ '"') :
    takeStr (v ++ '"' :: r) = some (v, r) := by
  induction v with
  | nil => simp [takeStr]
  | cons c cs ih =>
    have hc : c ≠ '"' := hv c (by simp)
    have ih' := ih (fun x hx => hv x (by simp [hx]))
    simp [takeStr, hc, ih']


lemma parseYmd_fmt (x : Ymd) (h : x.Valid) (h9 : x.y ≤ 9999) :
    parseYmdChars (fmtYmd x).data = some x := by
  obtain ⟨Y, M, D⟩ := x
  obtain ⟨hy1, hm1, hm2, hd1, hd2⟩ := h
  replace h9 : Y ≤ 9999 := h9
  replace hy1 : 1 ≤ Y := hy1
  replace hm1 : 1 ≤ M := hm1
  replace hm2 : M ≤ 12 := hm2
  replace hd1 : 1 ≤ D := hd1
  replace hd2 : D ≤ 31 := hd2
  unfold fmtYmd parseYmdChars
  dsimp only
  simp only [List.append_assoc, List.cons_append]
  rw [read4_pad4 _ (by omega)]
  dsimp only
  rw [expectC_cons]
  dsimp only
  rw [read2_pad2 _ (by omega)]
  dsimp only
  rw [expectC_cons]
  dsimp only
  rw [read2_pad2_nil _ (by omega)]
  dsimp only
  rw [if_pos rfl]
  congr 1
  simp only [Ymd.mk.injEq]
  refine ⟨by omega, by omega, by omega⟩

lemma fmtYmd_inj {d1 d2 : Ymd} (h1 : d1.Valid) (h19 : d1.y ≤ 9999)
    (h2 : d2.Valid) (h29 : d2.y ≤ 9999)
    (heq : (fmtYmd d1).data = (fmtYmd d2).data) : d1 = d2 := by
  have p1 := parseYmd_fmt d1 h1 h19
  have p2 := parseYmd_fmt d2 h2 h29
  rw [heq, p2] at p1
  exact (Option.some.inj p1).symm

lemma folderOf_inj (hy : String) {d1 d2 : Ymd} (h1 : d1.Valid) (h19 : d1.y ≤ 9999)
    (h2 : d2.Valid) (h29 : d2.y ≤ 9999)
    (heq : folderOf hy d1 = folderOf hy d2) : d1 = d2 := by
  apply fmtYmd_inj h1 h19 h2 h29
  unfold folderOf at heq
  have hd := congrArg String.data heq
  simp only [String.data_append] at hd
  have e1 := List.append_cancel_right hd
  exact List.append_cancel_left e1

/-- C8: every pipeline invocation's folder is the pure function
`data/hydrophone=<id>/date=<YYYY-MM-DD>/` of the source name and the local
calendar date of the partition's start (independent of times of day), and
this map is injective in the date: partitions on distinct valid dates never
share a folder. -/
theorem C8_folder_convention (pipe : ℕ → Bool) (s e : DT) (hy : String)
    (hv : validHydro hy = true) (hs1 : 1 ≤ s.ord) :
    (∀ c ∈ callsOf (processAudioData pipe s e hy).1,
      c.folder = folderOf hy (ord2ymd c.s.ord)) ∧
    (∀ d1 d2 : Ymd, d1.Valid → d1.y ≤ 9999 → d2.Valid → d2.y ≤ 9999 →
      d1 ≠ d2 → folderOf hy d1 ≠ folderOf hy d2) := by
  constructor
  · by_cases hd : s.pyDay = e.pyDay
    · rw [processAudioData_sameDay pipe s e hy hd hv]
      by_cases hp : pipe 0 = true
      · simp only [hp, if_true]
        intro c hc
        simp only [callsOf, List.mem_singleton] at hc
        rw [hc]
      · simp only [Bool.not_eq_true] at hp
        simp only [hp, Bool.false_eq_true, if_false]
        intro c hc
        simp only [callsOf, List.mem_singleton] at hc
        rw [hc]
    · rw [processAudioData_multiDay pipe s e hy hd hv]
      have hfold := runLoop_folders pipe hy e ((e.ord - s.ord + 1).toNat) s.ord s 0
        hs1 rfl
      rw [← planDates_conseq s e] at hfold
      by_cases hr : (runLoop pipe hy e (planDates s e) s 0).2 = true
      · simp only [hr, if_true]
        intro c hc
        rw [callsOf_append] at hc
        rcases List.mem_append.mp hc with h | h
        · exact hfold c h
        · simp [callsOf] at h
      · simp only [Bool.not_eq_true] at hr
        simp only [hr, Bool.false_eq_true, if_false]
        exact hfold
  · intro d1 d2 hv1 h19 hv2 h29 hne heq
    exact hne (folderOf_inj hy hv1 h19 hv2 h29 heq)

theorem C8_folder_convention_witness :
    validHydro "BUSH_POINT" = true ∧
    1 ≤ (DT.mk (ymd2ord ⟨2026, 1, 15⟩) 79200000000).ord ∧
    (∀ c ∈ callsOf (processAudioData (fun _ => true)
        ⟨ymd2ord ⟨2026, 1, 15⟩, 79200000000⟩
        ⟨ymd2ord ⟨2026, 1, 16⟩, 7200000000⟩ "BUSH_POINT").1,
      c.folder = folderOf "BUSH_POINT" (ord2ymd c.s.ord)) ∧
    folderOf "BUSH_POINT" ⟨2026, 1, 15⟩ ≠ folderOf "BUSH_POINT" ⟨2026, 1, 16⟩ := by
  obtain ⟨ha, hb⟩ := C8_folder_convention (fun _ => true)
    ⟨ymd2ord ⟨2026, 1, 15⟩, 79200000000⟩ ⟨ymd2ord ⟨2026, 1, 16⟩, 7200000000⟩
    "BUSH_POINT" (by decide) (by decide)
  exact ⟨by decide, by decide, ha,
    hb ⟨2026, 1, 15⟩ ⟨2026, 1, 16⟩ (by decide) (by decide) (by decide) (by decide)
      (by decide)⟩

/-- C9: `Bookmark.load` catches exactly `FileNotFoundError`, silently
yielding the absent state (`last_processed = None`); any other I/O failure
propagates to the caller unchanged. -/
theorem C9_not_found_absorbed (m : String) :
    bookmarkLoad .notFound = .ok none ∧
    bookmarkLoad (.ioError m) = .error (.ioErr m) :=
  ⟨rfl, rfl⟩

/-- C10: writing a timezone-aware timestamp with `Bookmark.update`
(`json.dump` of its `isoformat()`) and reading it back with `Bookmark.load`
(`json.load` + `fromisoformat`) restores exactly the same timestamp. -/
theorem C10_roundtrip (t : PyDateTime) (h : t.Valid) :
    bookmarkLoad (.content (updateContent t)) = .ok (some t) := by
  have hpb : parseBookmark (updateContent t) = some (isoformat t) := by
    unfold parseBookmark updateContent
    show (match eatLit bmLit (bmLit ++ (isoChars t ++ '"' :: [Char.ofNat 125])) with
      | some l =>
          match takeStr l with
          | some (v, r) => if r = [Char.ofNat 125] then some (String.mk v) else none
          | none => none
      | none => none) = some (isoformat t)
    rw [eatLit_self]
    dsimp only
    rw [takeStr_no_quote _ _ (isoChars_no_quote t)]
    dsimp only
    rw [if_pos rfl]
    rfl
  unfold bookmarkLoad
  dsimp only
  rw [hpb]
  dsimp only
  unfold fromisoformat
  show (match parseIso (isoformat t).data with
    | none => Except.error LoadErr.valueErr
    | some u => Except.ok (some u)) = Except.ok (some t)
  rw [show (isoformat t).data = isoChars t from rfl]
  rw [parseIso_isoChars t h]

theorem C10_roundtrip_witness :
    (PyDateTime.mk 2026 1 15 10 30 0 0 (-480)).Valid ∧
    bookmarkLoad (.content (updateContent ⟨2026, 1, 15, 10, 30, 0, 0, -480⟩)) =
      .ok (some ⟨2026, 1, 15, 10, 30, 0, 0, -480⟩) :=
  ⟨by decide, C10_roundtrip _ (by decide)⟩

end Orca
